import Mathlib

set_option linter.unusedVariables false

/-!
Verification of the ERCRD optimization core (`src/ercrd/core.py`).

The Python code is shallowly embedded over `ℚ` (Python floats are modelled
as exact rationals, as the spec reasons about exact real arithmetic):

* `ERCRDOptimizer.__init__` configuration  → `Config` (with derived `dt`)
* numpy `reshape(K, d)` / `flatten` / `tile` → `decodeRows`, `encode`, `tile`
* `ERCRDOptimizer.objective_function`        → `objective_function`
  (the stateful domain model is threaded explicitly: each term maps a model
  state `σ` to a value and a successor state, in the call order of the code:
  efficiency, then adaptability, then collective)
* `optimize`'s inner `path_constraints` and the `'ineq'` closure
  `lambda x: -path_constraints(x)`           → `path_constraints_fn`,
  `solver_constraint_fn`
* `optimize`'s result packaging              → `optimize_package`
* `EnergyERCRD` methods                      → namespace `EnergyERCRD`
  (the lazily-created `prev_P` attribute is the explicit state
  `Option (List ℚ)`; `none` models a freshly constructed instance)
-/

/-- Constructor configuration of `ERCRDOptimizer`: weights `alpha, beta,
gamma`, horizon `T = time_horizon` and step count `K = discretization_steps`. -/
structure Config where
  alpha : ℚ
  beta : ℚ
  gamma : ℚ
  T : ℚ
  K : Nat

/-- `self.dt = time_horizon / discretization_steps`. -/
def Config.dt (cfg : Config) : ℚ := cfg.T / (cfg.K : ℚ)

/-- Row-major reshape of a flat vector into `K` rows of `d` entries each,
as numpy's `x_flat.reshape(K, d)` lays the data out (row `k` holds
`flat[k*d] … flat[k*d + d - 1]`). -/
def decodeRows : Nat → Nat → List ℚ → List (List ℚ)
  | 0, _, _ => []
  | K + 1, d, v => v.take d :: decodeRows K d (v.drop d)

/-- Row-major flatten, the inverse direction of `decodeRows`. -/
def encode (X : List (List ℚ)) : List ℚ := X.flatten

/-- `np.tile(x0, K)`: the flat initial guess built in `optimize`,
`K` concatenated copies of `x0`. -/
def tile (x0 : List ℚ) (K : Nat) : List ℚ := (List.replicate K x0).flatten

/-- The decode step of `objective_function`:
`n_states = x_flat.size // self.n_steps` followed by
`x_flat.reshape(self.n_steps, n_states)`, which raises (numpy
`ValueError: cannot reshape`) exactly when `K * (len // K) ≠ len`. -/
def objective_decode (K : Nat) (v : List ℚ) : Except String (List (List ℚ)) :=
  let n := v.length / K
  if v.length = K * n then .ok (decodeRows K n v) else .error "cannot reshape array"

/-- The decode step of `optimize`'s inner `path_constraints`:
`x_flat.reshape(self.n_steps, n_states)` with `n_states` fixed at
`x0.size = d`, which raises exactly when `len ≠ K * d`. -/
def path_decode (K d : Nat) (v : List ℚ) : Except String (List (List ℚ)) :=
  if v.length = K * d then .ok (decodeRows K d v) else .error "cannot reshape array"

/-- A domain model with explicit mutable state `σ`: each term maps the
current instance state, a state vector `x` and a time `t` to a scalar and
the successor instance state.  This is the explicit-state reading of the
Python instance methods `efficiency_term`, `adaptability_term`,
`collective_efficiency_term`. -/
structure ModelFns (σ : Type) where
  efficiency : σ → List ℚ → ℚ → ℚ × σ
  adaptability : σ → List ℚ → ℚ → ℚ × σ
  collective : σ → List ℚ → ℚ → ℚ × σ

/-- One iteration of the loop in `objective_function`: evaluate the three
terms at `(x_k, t = k·dt)` in program order, combine them with the weights,
and apply the trapezoidal factor
`weight = 0.5 if k == 0 or k == n_steps - 1 else 1.0`, times `dt`. -/
def objectiveStep (cfg : Config) {σ : Type} (M : ModelFns σ) (s : σ)
    (k : Nat) (xk : List ℚ) : ℚ × σ :=
  let t : ℚ := (k : ℚ) * cfg.dt
  let er := M.efficiency s xk t
  let ar := M.adaptability er.2 xk t
  let cr := M.collective ar.2 xk t
  let w : ℚ := if k = 0 ∨ k = cfg.K - 1 then 1/2 else 1
  (w * (cfg.alpha * er.1 + cfg.beta * ar.1 + cfg.gamma * cr.1) * cfg.dt, cr.2)

/-- The accumulation loop of `objective_function` over the timestep indices,
threading `total_cost` and the model state. -/
def aggregateSteps (cfg : Config) {σ : Type} (M : ModelFns σ)
    (X : List (List ℚ)) : List Nat → ℚ × σ → ℚ × σ
  | [], acc => acc
  | k :: ks, acc =>
      let r := objectiveStep cfg M acc.2 k (X.getD k [])
      aggregateSteps cfg M X ks (acc.1 + r.1, r.2)

/-- `ERCRDOptimizer.objective_function`: reshape the flat vector (deriving
the row width from its length), then accumulate the weighted per-timestep
costs for `k = 0 … K-1`.  Returns the total and the final model state. -/
def objective_function (cfg : Config) {σ : Type} (M : ModelFns σ) (s0 : σ)
    (v : List ℚ) : Except String (ℚ × σ) :=
  (objective_decode cfg.K v).map fun X =>
    aggregateSteps cfg M X (List.range cfg.K) (0, s0)

/-- Construction parameters of `EnergyERCRD`: node count, line-parameter
matrix `B`, and per-generator cost triples `(a, b, c)` where the third
component doubles as the declared max capacity (`max_gen`). -/
structure EnergyParams where
  num_nodes : Nat
  line_params : Nat → Nat → ℚ
  generator_costs : List (ℚ × ℚ × ℚ)

namespace EnergyERCRD

/-- `self.generator_costs[i][2]`, used by `constraints` as `max_gen`. -/
def maxCap (p : EnergyParams) (i : Nat) : ℚ := (p.generator_costs.getD i (0, 0, 0)).2.2

/-- `np.sum(self.generator_costs, axis=0)[2]`: the sum of the third
components of the cost triples. -/
def capSum (p : EnergyParams) : ℚ := (p.generator_costs.map fun g => g.2.2).sum

/-- `EnergyERCRD.efficiency_term`: quadratic generation cost
`Σ_i a_i·P_i² + b_i·P_i + c_i` over `P = x[:num_nodes]`; `t` is unused. -/
def efficiency_term (p : EnergyParams) (x : List ℚ) (t : ℚ) : ℚ :=
  let P := x.take p.num_nodes
  (List.range p.num_nodes).foldl
    (fun cost i =>
      let g := p.generator_costs.getD i (0, 0, 0)
      cost + g.1 * (P.getD i 0) ^ 2 + g.2.1 * P.getD i 0 + g.2.2)
    0

/-- `EnergyERCRD.adaptability_term`: squared deviation of
`P = x[:num_nodes]` from the memoised `prev_P` (zero when no memo exists),
then the memo is set to a copy of `P`.  The lazily-created instance
attribute is the explicit state: `none` is "attribute absent". -/
def adaptability_term (p : EnergyParams) (prev : Option (List ℚ))
    (x : List ℚ) (t : ℚ) : ℚ × Option (List ℚ) :=
  let P := x.take p.num_nodes
  let change : ℚ :=
    match prev with
    | some q => (List.zipWith (fun a b => (a - b) ^ 2) P q).sum
    | none => 0
  (change, some P)

/-- `EnergyERCRD.collective_efficiency_term`: for `θ = x[num_nodes:]`, the
sum of `(θ_i - θ_j)²` over pairs `i < j` with a nonzero line parameter;
`t` is unused. -/
def collective_efficiency_term (p : EnergyParams) (x : List ℚ) (t : ℚ) : ℚ :=
  let θ := x.drop p.num_nodes
  (List.range p.num_nodes).foldl
    (fun acc i =>
      (List.range p.num_nodes).foldl
        (fun acc2 j =>
          if i < j ∧ p.line_params i j ≠ 0
          then acc2 + (θ.getD i 0 - θ.getD j 0) ^ 2
          else acc2)
        acc)
    0

/-- `EnergyERCRD.constraints`: first the budget residual
`sum(P) - 0.8·Σ_i c_i`, then for each node `i` the pair
`P_i - max_gen_i` and `-P_i`; `t` is unused.  `≤ 0` means satisfied. -/
def constraints (p : EnergyParams) (x : List ℚ) (t : ℚ) : List ℚ :=
  let P := x.take p.num_nodes
  (P.sum - capSum p * (8 / 10)) ::
    (List.range p.num_nodes).flatMap fun i =>
      [P.getD i 0 - maxCap p i, -(P.getD i 0)]

end EnergyERCRD

/-- The `EnergyERCRD` instance methods bundled in the explicit-state model
signature.  `efficiency_term` and `collective_efficiency_term` touch no
instance attribute, so they return the state unchanged; `adaptability_term`
is the only mutator. -/
def energyModelFns (p : EnergyParams) : ModelFns (Option (List ℚ)) where
  efficiency := fun s x t => (EnergyERCRD.efficiency_term p x t, s)
  adaptability := fun s x t => EnergyERCRD.adaptability_term p s x t
  collective := fun s x t => (EnergyERCRD.collective_efficiency_term p x t, s)

/-- The state layout of the energy model: `x = [P_1 … P_n, θ_1 … θ_n]`
(generation levels then voltage angles), so the state dimension is
`2 · num_nodes`. -/
def stateDim (p : EnergyParams) : Nat := 2 * p.num_nodes

/-- `optimize`'s inner `path_constraints`: reshape with the row width `d`
fixed from `x0.size`, then concatenate `constraints(X[k], k·dt)` over all
timesteps in order. -/
def path_constraints_fn (cfg : Config) (p : EnergyParams) (d : Nat)
    (v : List ℚ) : Except String (List ℚ) :=
  (path_decode cfg.K d v).map fun X =>
    (List.range cfg.K).flatMap fun k =>
      EnergyERCRD.constraints p (X.getD k []) ((k : ℚ) * cfg.dt)

/-- The `'ineq'` constraint closure handed to `scipy.optimize.minimize`:
`lambda x: -path_constraints(x)`. -/
def solver_constraint_fn (cfg : Config) (p : EnergyParams) (d : Nat)
    (v : List ℚ) : Except String (List ℚ) :=
  (path_constraints_fn cfg p d v).map (List.map Neg.neg)

/-- What the external solver hands back: final vector, objective value,
success flag, iteration count, and a message. -/
structure SolverResult where
  x : List ℚ
  fnval : ℚ
  success : Bool
  nit : Nat
  message : String

/-- The dictionary `optimize` returns: exactly the keys `'success'`,
`'optimal_trajectory'`, `'final_cost'`, `'nit'`. -/
structure OptResult where
  success : Bool
  optimal_trajectory : List (List ℚ)
  final_cost : ℚ
  nit : Nat
deriving DecidableEq

/-- The tail of `optimize`: reshape `result.x` to `(n_steps, n_states)` and
build the returned dictionary from the solver result. -/
def optimize_package (K d : Nat) (r : SolverResult) : OptResult :=
  { success := r.success
    optimal_trajectory := decodeRows K d r.x
    final_cost := r.fnval
    nit := r.nit }

/-- The pre-solver prefix of `optimize`: `n_states = x0.size` and
`x0_trajectory = np.tile(x0, self.n_steps)`.  No validation occurs here. -/
def optimize_setup (cfg : Config) (x0 : List ℚ) : Nat × List ℚ :=
  (x0.length, tile x0 cfg.K)

/-! ## List-level helper lemmas -/

lemma take_getD (l : List ℚ) : ∀ (n j : Nat), j < n → (l.take n).getD j 0 = l.getD j 0 := by
  induction l with
  | nil => intro n j _; simp
  | cons a tl ih =>
    intro n j hj
    cases n with
    | zero => omega
    | succ m =>
      cases j with
      | zero => simp
      | succ i => simpa using ih m i (by omega)

lemma drop_getD (l : List ℚ) : ∀ (n i : Nat), (l.drop n).getD i 0 = l.getD (n + i) 0 := by
  induction l with
  | nil => intro n i; simp
  | cons a tl ih =>
    intro n i
    cases n with
    | zero => simp
    | succ m =>
      have h : m + 1 + i = (m + i) + 1 := by omega
      rw [List.drop_succ_cons, ih m i, h, List.getD_cons_succ]

lemma tile_succ (x0 : List ℚ) (K : Nat) : tile x0 (K + 1) = x0 ++ tile x0 K := by
  simp [tile, List.replicate_succ]

lemma tile_length (x0 : List ℚ) : ∀ K, (tile x0 K).length = K * x0.length := by
  intro K
  induction K with
  | zero => simp [tile]
  | succ K ih => rw [tile_succ, List.length_append, ih]; ring

lemma decodeRows_length (d : Nat) : ∀ (K : Nat) (v : List ℚ), (decodeRows K d v).length = K := by
  intro K
  induction K with
  | zero => intro v; rfl
  | succ K ih => intro v; simp [decodeRows, ih]

lemma decodeRows_tile (x0 : List ℚ) : ∀ K, decodeRows K x0.length (tile x0 K) = List.replicate K x0 := by
  intro K
  induction K with
  | zero => rfl
  | succ K ih =>
    rw [decodeRows, tile_succ, List.take_left, List.drop_left, ih, List.replicate_succ]

lemma encode_length (d : Nat) : ∀ (X : List (List ℚ)), (∀ r ∈ X, r.length = d) →
    (encode X).length = X.length * d := by
  intro X
  induction X with
  | nil => intro _; simp [encode]
  | cons r X ih =>
    intro h
    have hr : r.length = d := h r (by simp)
    have hX : ∀ q ∈ X, q.length = d := fun q hq => h q (by simp [hq])
    simp only [encode, List.flatten_cons, List.length_append, List.length_cons]
    rw [hr, show (X.flatten : List ℚ).length = (encode X).length from rfl, ih hX]
    ring

lemma encode_decodeRows (d : Nat) : ∀ (K : Nat) (v : List ℚ), v.length = K * d →
    encode (decodeRows K d v) = v := by
  intro K
  induction K with
  | zero =>
    intro v hv
    have : v = [] := List.eq_nil_of_length_eq_zero (by simpa using hv)
    simp [this, decodeRows, encode]
  | succ K ih =>
    intro v hv
    have hd : (v.drop d).length = K * d := by
      rw [List.length_drop, hv]; ring_nf; omega
    simp only [decodeRows, encode, List.flatten_cons]
    rw [show ((decodeRows K d (v.drop d)).flatten : List ℚ) = encode (decodeRows K d (v.drop d)) from rfl,
      ih (v.drop d) hd, List.take_append_drop]

lemma decodeRows_encode (d : Nat) : ∀ (X : List (List ℚ)), (∀ r ∈ X, r.length = d) →
    decodeRows X.length d (encode X) = X := by
  intro X
  induction X with
  | nil => intro _; rfl
  | cons r X ih =>
    intro h
    have hr : r.length = d := h r (by simp)
    have hX : ∀ q ∈ X, q.length = d := fun q hq => h q (by simp [hq])
    simp only [encode, List.flatten_cons, List.length_cons, decodeRows]
    rw [List.take_left' hr, List.drop_left' hr,
      show ((X.flatten : List ℚ)) = encode X from rfl, ih hX]

lemma decodeRows_getD (d : Nat) : ∀ (k K : Nat) (v : List ℚ), k < K → ∀ j, j < d →
    ((decodeRows K d v).getD k []).getD j 0 = v.getD (k * d + j) 0 := by
  intro k
  induction k with
  | zero =>
    intro K v hk j hj
    cases K with
    | zero => omega
    | succ K => simpa [decodeRows] using take_getD v d j hj
  | succ k ih =>
    intro K v hk j hj
    cases K with
    | zero => omega
    | succ K =>
      have harith : d + (k * d + j) = (k + 1) * d + j := by ring
      simp only [decodeRows, List.getD_cons_succ]
      rw [ih K (v.drop d) (by omega) j hj, drop_getD, harith]

lemma replicate_getD (x0 : List ℚ) : ∀ (K k : Nat), k < K →
    (List.replicate K x0).getD k [] = x0 := by
  intro K
  induction K with
  | zero => intro k hk; omega
  | succ K ih =>
    intro k hk
    cases k with
    | zero => simp [List.replicate_succ]
    | succ k => simpa [List.replicate_succ] using ih k (by omega)

/-! ## Claim theorems -/

/-- Squared Euclidean norm of the componentwise difference of two vectors,
`‖u - v‖²`, the quantity named by the spec's adaptability description. -/
def sqDist (u v : List ℚ) : ℚ := (List.zipWith (fun a b => (a - b) ^ 2) u v).sum

/-- C3: on a freshly constructed energy model (no `prev_P` memo, state
`none`), the first `adaptability_term` call returns `0` for every input,
and a second call on the same instance returns `‖x2 - x1‖²` restricted to
the first `num_nodes` components. -/
theorem C3_adaptability_memo (p : EnergyParams) (x1 x2 : List ℚ) (t1 t2 : ℚ)
    (h1 : p.num_nodes ≤ x1.length) (h2 : p.num_nodes ≤ x2.length) :
    (EnergyERCRD.adaptability_term p none x1 t1).1 = 0 ∧
    (EnergyERCRD.adaptability_term p
        (EnergyERCRD.adaptability_term p none x1 t1).2 x2 t2).1 =
      sqDist (x2.take p.num_nodes) (x1.take p.num_nodes) := by
  exact ⟨rfl, rfl⟩

/-- Witness for C3 at a concrete two-node model and concrete states. -/
theorem C3_adaptability_memo_witness :
    (EnergyERCRD.adaptability_term ⟨2, fun _ _ => 0, [(1, 1, 1), (1, 1, 1)]⟩ none [1, 5, 9] 0).1 = 0 ∧
    (EnergyERCRD.adaptability_term ⟨2, fun _ _ => 0, [(1, 1, 1), (1, 1, 1)]⟩
        (EnergyERCRD.adaptability_term ⟨2, fun _ _ => 0, [(1, 1, 1), (1, 1, 1)]⟩ none [1, 5, 9] 0).2
        [4, 7, 9] 1).1 =
      sqDist (([4, 7, 9] : List ℚ).take 2) (([1, 5, 9] : List ℚ).take 2) :=
  C3_adaptability_memo ⟨2, fun _ _ => 0, [(1, 1, 1), (1, 1, 1)]⟩ [1, 5, 9] [4, 7, 9] 0 1
    (by decide) (by decide)

/-- C7: encode/decode between the flat decision vector and the `K×d`
trajectory is a lossless, order-preserving, row-major bijection:
`decode (encode X) = X` for trajectories of shape `K×d`,
`encode (decode v) = v` for flat vectors of length `K·d`, and element
`flat[k·d + j]` corresponds to `X[k][j]`. -/
theorem C7_encode_decode_bijection (K d : Nat) :
    (∀ X : List (List ℚ), X.length = K → (∀ r ∈ X, r.length = d) →
      path_decode K d (encode X) = .ok X) ∧
    (∀ v : List ℚ, v.length = K * d → encode (decodeRows K d v) = v) ∧
    (∀ v : List ℚ, v.length = K * d → ∀ k j, k < K → j < d →
      ((decodeRows K d v).getD k []).getD j 0 = v.getD (k * d + j) 0) := by
  refine ⟨?_, ?_, ?_⟩
  · intro X hK hr
    have hlen : (encode X).length = K * d := by rw [encode_length d X hr, hK]
    have hdec : decodeRows K d (encode X) = X := by
      have := decodeRows_encode d X hr
      rwa [hK] at this
    simp [path_decode, hlen, hdec]
  · intro v hv
    exact encode_decodeRows d K v hv
  · intro v hv k j hk hj
    exact decodeRows_getD d k K v hk j hj

/-- Witness for C7 with `K = d = 2`: a concrete trajectory and a concrete
flat vector round-trip exactly, and `flat[1·2 + 0] = X[1][0]`. -/
theorem C7_encode_decode_bijection_witness :
    path_decode 2 2 (encode [[1, 2], [3, 4]]) = .ok [[1, 2], [3, 4]] ∧
    encode (decodeRows 2 2 [1, 2, 3, 4]) = [1, 2, 3, 4] ∧
    ((decodeRows 2 2 [1, 2, 3, 4]).getD 1 []).getD 0 0 =
      ([1, 2, 3, 4] : List ℚ).getD (1 * 2 + 0) 0 :=
  ⟨(C7_encode_decode_bijection 2 2).1 [[1, 2], [3, 4]] rfl (by decide),
   (C7_encode_decode_bijection 2 2).2.1 [1, 2, 3, 4] rfl,
   (C7_encode_decode_bijection 2 2).2.2 [1, 2, 3, 4] rfl 1 0 (by decide) (by decide)⟩

/-- C8: the initial guess `np.tile(x0, K)` is exact tiling: decoding the
replicated flat vector of length `K·d` succeeds and every row `k < K` of
the resulting trajectory equals `x0`. -/
theorem C8_replicate_rows (x0 : List ℚ) (K k : Nat) (hk : k < K) :
    path_decode K x0.length (tile x0 K) = .ok (List.replicate K x0) ∧
    (List.replicate K x0).getD k [] = x0 := by
  constructor
  · simp [path_decode, tile_length, decodeRows_tile]
  · exact replicate_getD x0 K k hk

/-- Witness for C8 at `x0 = [2, 7]`, `K = 3`, row `k = 1`. -/
theorem C8_replicate_rows_witness :
    path_decode 3 ([2, 7] : List ℚ).length (tile [2, 7] 3) = .ok (List.replicate 3 [2, 7]) ∧
    (List.replicate 3 ([2, 7] : List ℚ)).getD 1 [] = [2, 7] :=
  C8_replicate_rows [2, 7] 3 1 (by decide)

/-- C10: for the concrete energy model, `efficiency_term` and
`collective_efficiency_term` are pure — they leave the instance state
unchanged and ignore the time argument; `constraints` is time-independent
and always has exactly `2·num_nodes + 1` residual entries; only
`adaptability_term` mutates instance state, setting the memo to a copy of
the first `num_nodes` components of its argument. -/
theorem C10_frame_effects (p : EnergyParams) :
    (∀ (s : Option (List ℚ)) (x : List ℚ) (t1 t2 : ℚ),
      (energyModelFns p).efficiency s x t1 = (EnergyERCRD.efficiency_term p x t1, s) ∧
      EnergyERCRD.efficiency_term p x t1 = EnergyERCRD.efficiency_term p x t2) ∧
    (∀ (s : Option (List ℚ)) (x : List ℚ) (t1 t2 : ℚ),
      (energyModelFns p).collective s x t1 = (EnergyERCRD.collective_efficiency_term p x t1, s) ∧
      EnergyERCRD.collective_efficiency_term p x t1 =
        EnergyERCRD.collective_efficiency_term p x t2) ∧
    (∀ (x : List ℚ) (t1 t2 : ℚ),
      EnergyERCRD.constraints p x t1 = EnergyERCRD.constraints p x t2) ∧
    (∀ (x : List ℚ) (t : ℚ),
      (EnergyERCRD.constraints p x t).length = 2 * p.num_nodes + 1) ∧
    (∀ (s : Option (List ℚ)) (x : List ℚ) (t : ℚ),
      ((energyModelFns p).adaptability s x t).2 = some (x.take p.num_nodes)) := by
  refine ⟨fun s x t1 t2 => ⟨rfl, rfl⟩, fun s x t1 t2 => ⟨rfl, rfl⟩, fun x t1 t2 => rfl,
    fun x t => ?_, fun s x t => rfl⟩
  have hlen : ∀ (f : Nat → List ℚ), (∀ i, (f i).length = 2) →
      ∀ l : List Nat, (l.flatMap f).length = 2 * l.length := by
    intro f hf l
    induction l with
    | nil => simp
    | cons a l ih => simp [List.flatMap_cons, hf, ih]; omega
  simp only [EnergyERCRD.constraints, List.length_cons]
  rw [hlen (fun i => [(x.take p.num_nodes).getD i 0 - EnergyERCRD.maxCap p i,
      -((x.take p.num_nodes).getD i 0)]) (fun i => rfl) (List.range p.num_nodes),
    List.length_range]

/-- `true` iff the embedded computation completed without raising. -/
def runsOk {α : Type} : Except String α → Bool
  | .ok _ => true
  | .error _ => false

instance {ε α : Type} [DecidableEq ε] [DecidableEq α] : DecidableEq (Except ε α) := fun x y =>
  match x, y with
  | .ok a, .ok b =>
      if h : a = b then .isTrue (h ▸ rfl) else .isFalse (fun hc => h (Except.ok.inj hc))
  | .error a, .error b =>
      if h : a = b then .isTrue (h ▸ rfl) else .isFalse (fun hc => h (Except.error.inj hc))
  | .ok _, .error _ => .isFalse (fun hc => Except.noConfusion hc)
  | .error _, .ok _ => .isFalse (fun hc => Except.noConfusion hc)

/-- C2 (amended): in `path_constraints` — where the row width is fixed from
`x0.size` — decoding a flat vector of length `≠ K·d` raises a shape error
and is never truncated, padded, or reshaped.  In `objective_function`,
however, the row width is derived as `length // K`: decoding raises only
when `K` does not divide the length, and a vector of length `K·m` is
silently reshaped to `K` rows of width `m`, even when `m ≠ d`. -/
theorem C2_decode_shape (K d : Nat) (hK : 1 ≤ K) :
    (∀ v : List ℚ, v.length ≠ K * d → path_decode K d v = .error "cannot reshape array") ∧
    (∀ v : List ℚ, runsOk (objective_decode K v) = true ↔ K ∣ v.length) ∧
    (∀ (v : List ℚ) (m : Nat), v.length = K * m →
      objective_decode K v = .ok (decodeRows K m v)) := by
  refine ⟨?_, ?_, ?_⟩
  · intro v hv
    simp [path_decode, hv]
  · intro v
    constructor
    · intro h
      by_cases hc : v.length = K * (v.length / K)
      · exact ⟨v.length / K, hc⟩
      · simp only [objective_decode] at h
        rw [if_neg hc] at h
        simp [runsOk] at h
    · intro hdvd
      have hc : v.length = K * (v.length / K) := (Nat.mul_div_cancel' hdvd).symm
      simp only [objective_decode]
      rw [if_pos hc]
      rfl
  · intro v m hv
    have hm : v.length / K = m := by
      rw [hv]; exact Nat.mul_div_cancel_left m (by omega)
    simp only [objective_decode, hm]
    rw [if_pos hv]

/-- Witness for C2 (amended) at `K = 2`, `d = 2`: a vector of length 3
fails `path_constraints`-style decode, a vector of length 5 fails
`objective_function`-style decode, and a vector of length 6 decodes there
into rows of width 3. -/
theorem C2_decode_shape_witness :
    path_decode 2 2 [1, 2, 3] = .error "cannot reshape array" ∧
    (runsOk (objective_decode 2 [1, 2, 3, 4, 5]) = true ↔ 2 ∣ 5) ∧
    objective_decode 2 [1, 2, 3, 4, 5, 6] = .ok (decodeRows 2 3 [1, 2, 3, 4, 5, 6]) :=
  ⟨(C2_decode_shape 2 2 (by decide)).1 [1, 2, 3] (by decide),
   (C2_decode_shape 2 2 (by decide)).2.1 [1, 2, 3, 4, 5],
   (C2_decode_shape 2 2 (by decide)).2.2 [1, 2, 3, 4, 5, 6] 3 (by decide)⟩

/-- Counterexample to C2 as stated: for a configured energy model with one
node (state dimension `d = 2`) and `K = 2` steps, the flat vector
`[1, 2, 3, 4, 5, 6]` has length `6 ≠ K·d = 4`, yet the decode step of
`objective_function` does not fail — it silently reshapes the vector into
a `2×3` trajectory. -/
theorem C2_decode_shape_counterexample :
    ([1, 2, 3, 4, 5, 6] : List ℚ).length ≠ 2 * stateDim ⟨1, fun _ _ => 0, [(1, 1, 1)]⟩ ∧
    objective_decode 2 [1, 2, 3, 4, 5, 6] = .ok [[1, 2, 3], [4, 5, 6]] := by
  constructor
  · decide
  · rfl

lemma objective_decode_of_mul (K m : Nat) (hK : 1 ≤ K) (v : List ℚ)
    (hv : v.length = K * m) : objective_decode K v = .ok (decodeRows K m v) := by
  have hm : v.length / K = m := by
    rw [hv]; exact Nat.mul_div_cancel_left m (by omega)
  simp only [objective_decode, hm]
  rw [if_pos hv]

/-- C6 (amended): `optimize` performs no validation of `x0` against the
domain state dimension.  It takes `n_states = x0.size`, tiles `x0` into
the initial flat guess, and proceeds: on a fresh model (no memo) with an
`x0` at least as long as the state dimension — including every mismatched
longer length, where all slices taken by the energy model's terms stay in
range — both solver-facing closures (objective and stacked constraints)
evaluate on the tiled guess without raising, so a mismatched `x0` is never
rejected before the solver is invoked.  (Shorter `x0` leads the Python
terms to index past the end of `x[:num_nodes]` instead, still not to a
validation failure.) -/
theorem C6_no_validation (cfg : Config) (p : EnergyParams)
    (x0 : List ℚ) (hK : 1 ≤ cfg.K) (hlen : stateDim p ≤ x0.length) :
    optimize_setup cfg x0 = (x0.length, tile x0 cfg.K) ∧
    runsOk (objective_function cfg (energyModelFns p) none (tile x0 cfg.K)) = true ∧
    runsOk (path_constraints_fn cfg p x0.length (tile x0 cfg.K)) = true := by
  refine ⟨rfl, ?_, ?_⟩
  · rw [objective_function,
      objective_decode_of_mul cfg.K x0.length hK (tile x0 cfg.K) (tile_length x0 cfg.K)]
    rfl
  · rw [path_constraints_fn, path_decode, if_pos (tile_length x0 cfg.K)]
    rfl

/-- Witness for C6 (amended): a two-step configuration, a one-node energy
model (state dimension 2), and an `x0` of the mismatched longer length 3 —
the setup and both closures still go through. -/
theorem C6_no_validation_witness :
    optimize_setup ⟨2/5, 3/10, 3/10, 1, 2⟩ [1, 2, 3] = (([1, 2, 3] : List ℚ).length, tile [1, 2, 3] 2) ∧
    runsOk (objective_function ⟨2/5, 3/10, 3/10, 1, 2⟩
      (energyModelFns ⟨1, fun _ _ => 0, [(1, 1, 1)]⟩) none (tile [1, 2, 3] 2)) = true ∧
    runsOk (path_constraints_fn ⟨2/5, 3/10, 3/10, 1, 2⟩
      ⟨1, fun _ _ => 0, [(1, 1, 1)]⟩ ([1, 2, 3] : List ℚ).length (tile [1, 2, 3] 2)) = true :=
  C6_no_validation ⟨2/5, 3/10, 3/10, 1, 2⟩ ⟨1, fun _ _ => 0, [(1, 1, 1)]⟩ [1, 2, 3]
    (by decide) (by decide)

/-- Counterexample to C6 as stated: with a one-node energy model the state
dimension is 2, `x0 = [1, 2, 3]` has length `3 ≠ 2`, yet the pre-solver
stage of `optimize` does not abort — the objective closure evaluates on
the tiled guess without raising. -/
theorem C6_no_validation_counterexample :
    ([1, 2, 3] : List ℚ).length ≠ stateDim ⟨1, fun _ _ => 0, [(1, 1, 1)]⟩ ∧
    runsOk (objective_function ⟨2/5, 3/10, 3/10, 1, 2⟩
      (energyModelFns ⟨1, fun _ _ => 0, [(1, 1, 1)]⟩) none (tile [1, 2, 3] 2)) = true := by
  refine ⟨by decide, ?_⟩
  rw [objective_function,
    objective_decode_of_mul 2 3 (by decide) (tile [1, 2, 3] 2) (tile_length [1, 2, 3] 2)]
  rfl

/-- C5: the dictionary built at the end of `optimize` holds exactly
`success`, `optimal_trajectory`, `final_cost` and `nit`; it is invariant
under the solver's `message`, i.e. the message the claim says is carried
verbatim is in fact discarded. -/
theorem C5_message_discarded (K d : Nat) (r : SolverResult) (m : String) :
    optimize_package K d { r with message := m } = optimize_package K d r := rfl

/-- C9: the aggregated objective is not a function of the flat vector
alone.  For a one-node model with adaptability weight `β = 1 ≠ 0` and the
flat vector `[1, 0, 2, 0]`, a first aggregate call on a fresh memo returns
`1/2` and leaves the memo at `[2]`; a second call on the carried-over memo
returns `1` — the two successive calls disagree.  Rerunning from the reset
memo (`none`, the first conjunct again) reproduces `1/2`, so after a reset
(or on a fresh instance) the calls agree. -/
theorem C9_stateful_objective :
    (⟨0, 1, 0, 2, 2⟩ : Config).beta ≠ 0 ∧
    objective_function ⟨0, 1, 0, 2, 2⟩ (energyModelFns ⟨1, fun _ _ => 0, [(0, 0, 1)]⟩)
      none [1, 0, 2, 0] = .ok (1/2, some [2]) ∧
    objective_function ⟨0, 1, 0, 2, 2⟩ (energyModelFns ⟨1, fun _ _ => 0, [(0, 0, 1)]⟩)
      (some [2]) [1, 0, 2, 0] = .ok (1, some [2]) ∧
    ((1 : ℚ)/2) ≠ 1 := by
  refine ⟨by norm_num, ?_, ?_, by norm_num⟩ <;>
  · simp [objective_function, objective_decode, decodeRows, aggregateSteps, objectiveStep,
      energyModelFns, EnergyERCRD.efficiency_term, EnergyERCRD.adaptability_term,
      EnergyERCRD.collective_efficiency_term, Config.dt, List.range_succ, Except.map]
    norm_num

/-- Feasibility of a single state for the energy model, read off the
residuals of `EnergyERCRD.constraints`: every generation level
`P_i = x[:num_nodes][i]` lies in `[0, max_gen_i]` and the total allocation
stays within the capacity-derived budget `0.8·Σ_i max_gen_i`. -/
def feasible (p : EnergyParams) (x : List ℚ) : Prop :=
  (∀ i, i < p.num_nodes →
    0 ≤ (x.take p.num_nodes).getD i 0 ∧
    (x.take p.num_nodes).getD i 0 ≤ EnergyERCRD.maxCap p i) ∧
  (x.take p.num_nodes).sum ≤ EnergyERCRD.capSum p * (8 / 10)

/-- C4: a state with some `P_i` above its declared max capacity yields a
strictly positive residual from `constraints`; a feasible state yields
only residuals `≤ 0`; and the constraint function handed to the solver is
exactly the negation of the stacked residual vector, so solver-side
satisfaction (`g(v) ≥ 0` entrywise) is equivalent to the core's `≤ 0`
convention. -/
theorem C4_constraint_signs (cfg : Config) (p : EnergyParams) :
    (∀ (x : List ℚ) (t : ℚ) (i : Nat), i < p.num_nodes →
      EnergyERCRD.maxCap p i < (x.take p.num_nodes).getD i 0 →
      ∃ r ∈ EnergyERCRD.constraints p x t, 0 < r) ∧
    (∀ (x : List ℚ) (t : ℚ), feasible p x →
      ∀ r ∈ EnergyERCRD.constraints p x t, r ≤ 0) ∧
    (∀ (d : Nat) (v l : List ℚ), path_constraints_fn cfg p d v = .ok l →
      solver_constraint_fn cfg p d v = .ok (l.map Neg.neg) ∧
      ((∀ r ∈ l.map Neg.neg, 0 ≤ r) ↔ (∀ r ∈ l, r ≤ 0))) := by
  refine ⟨?_, ?_, ?_⟩
  · intro x t i hi hcap
    refine ⟨(x.take p.num_nodes).getD i 0 - EnergyERCRD.maxCap p i, ?_, by linarith⟩
    simp only [EnergyERCRD.constraints]
    exact List.mem_cons_of_mem _
      (List.mem_flatMap.mpr ⟨i, List.mem_range.mpr hi, by simp⟩)
  · intro x t hfeas r hr
    simp only [EnergyERCRD.constraints] at hr
    rcases List.mem_cons.mp hr with h | h
    · have := hfeas.2
      rw [h]
      linarith
    · obtain ⟨i, hirange, hmem⟩ := List.mem_flatMap.mp h
      have hi := List.mem_range.mp hirange
      have hbounds := hfeas.1 i hi
      simp only [List.mem_cons, List.mem_singleton] at hmem
      rcases hmem with h1 | h1 | h1
      · rw [h1]; linarith [hbounds.2]
      · rw [h1]; linarith [hbounds.1]
      · cases h1
  · intro d v l hokl
    refine ⟨?_, ?_, ?_⟩
    · rw [solver_constraint_fn, hokl]
      rfl
    · intro hpos r hrl
      have := hpos (-r) (List.mem_map_of_mem Neg.neg hrl)
      linarith
    · intro hneg r hrm
      obtain ⟨a, ha, rfl⟩ := List.mem_map.mp hrm
      have := hneg a ha
      simpa using this

/-- Witness for C4 on a concrete two-node model (capacities 10 and 20,
budget `0.8·30 = 24`): the state `[11, 5, 0, 0]` violates node 0's cap and
produces a positive residual; the state `[5, 5, 0, 0]` is feasible and
produces only nonpositive residuals; the solver-facing closure is the
negated residual stack for a concrete well-shaped flat vector. -/
theorem C4_constraint_signs_witness :
    (∃ r ∈ EnergyERCRD.constraints ⟨2, fun _ _ => 0, [(1, 1, 10), (1, 1, 20)]⟩ [11, 5, 0, 0] 0, 0 < r) ∧
    (∀ r ∈ EnergyERCRD.constraints ⟨2, fun _ _ => 0, [(1, 1, 10), (1, 1, 20)]⟩ [5, 5, 0, 0] 0, r ≤ 0) ∧
    (solver_constraint_fn ⟨1, 0, 0, 1, 1⟩ ⟨2, fun _ _ => 0, [(1, 1, 10), (1, 1, 20)]⟩ 4 [5, 5, 0, 0] =
      .ok (([-14, -5, -5, -15, -5] : List ℚ).map Neg.neg) ∧
      ((∀ r ∈ ([-14, -5, -5, -15, -5] : List ℚ).map Neg.neg, 0 ≤ r) ↔
        (∀ r ∈ ([-14, -5, -5, -15, -5] : List ℚ), r ≤ 0))) := by
  refine ⟨(C4_constraint_signs ⟨1, 0, 0, 1, 1⟩ ⟨2, fun _ _ => 0, [(1, 1, 10), (1, 1, 20)]⟩).1
      [11, 5, 0, 0] 0 0 (by norm_num) (by norm_num [EnergyERCRD.maxCap]),
    (C4_constraint_signs ⟨1, 0, 0, 1, 1⟩ ⟨2, fun _ _ => 0, [(1, 1, 10), (1, 1, 20)]⟩).2.1
      [5, 5, 0, 0] 0 ?_,
    (C4_constraint_signs ⟨1, 0, 0, 1, 1⟩ ⟨2, fun _ _ => 0, [(1, 1, 10), (1, 1, 20)]⟩).2.2
      4 [5, 5, 0, 0] [-14, -5, -5, -15, -5] ?_⟩
  · constructor
    · intro i hi
      interval_cases i <;> norm_num [EnergyERCRD.maxCap]
    · norm_num [EnergyERCRD.capSum]
  · simp only [path_constraints_fn, path_decode, Config.dt, EnergyERCRD.constraints,
      EnergyERCRD.maxCap, EnergyERCRD.capSum, decodeRows, List.range_succ, Except.map]
    norm_num

lemma aggregateSteps_fst_of_const (cfg : Config) {σ : Type} (M : ModelFns σ)
    (X : List (List ℚ)) (f : Nat → ℚ)
    (hf : ∀ (s : σ) (k : Nat), (objectiveStep cfg M s k (X.getD k [])).1 = f k) :
    ∀ (ks : List Nat) (tot : ℚ) (s : σ),
      (aggregateSteps cfg M X ks (tot, s)).1 = tot + (ks.map f).sum := by
  intro ks
  induction ks with
  | nil => intro tot s; simp [aggregateSteps]
  | cons k ks ih =>
    intro tot s
    rw [aggregateSteps]
    simp only []
    rw [ih, hf, List.map_cons, List.sum_cons]
    ring

lemma list_map_range_sum (f : Nat → ℚ) : ∀ n : Nat,
    ((List.range n).map f).sum = ∑ k ∈ Finset.range n, f k := by
  intro n
  induction n with
  | zero => simp
  | succ n ih =>
    rw [List.range_succ, List.map_append, List.sum_append, Finset.sum_range_succ, ih]
    simp

lemma trapezoid_weight_sum (K : Nat) (hK : 2 ≤ K) :
    ∑ k ∈ Finset.range K, (if k = 0 ∨ k = K - 1 then (1/2 : ℚ) else 1) = (K : ℚ) - 1 := by
  have hsplit : ∀ k ∈ Finset.range K,
      (if k = 0 ∨ k = K - 1 then (1/2 : ℚ) else 1) =
        1 - (if k = 0 then (1/2 : ℚ) else 0) - (if k = K - 1 then (1/2 : ℚ) else 0) := by
    intro k hk
    by_cases h0 : k = 0
    · have h1 : k ≠ K - 1 := by omega
      rw [if_pos (Or.inl h0), if_pos h0, if_neg h1]
      norm_num
    · by_cases h1 : k = K - 1
      · rw [if_pos (Or.inr h1), if_neg h0, if_pos h1]
        norm_num
      · rw [if_neg (by tauto), if_neg h0, if_neg h1]
        norm_num
  rw [Finset.sum_congr rfl hsplit, Finset.sum_sub_distrib, Finset.sum_sub_distrib,
    Finset.sum_const, Finset.sum_ite_eq' (Finset.range K) 0 (fun _ => (1/2 : ℚ)),
    Finset.sum_ite_eq' (Finset.range K) (K - 1) (fun _ => (1/2 : ℚ)),
    if_pos (Finset.mem_range.mpr (by omega)), if_pos (Finset.mem_range.mpr (by omega))]
  simp only [Finset.card_range, nsmul_eq_mul, mul_one]
  ring

lemma objectiveStep_const (cfg : Config) {σ : Type} (M : ModelFns σ) (c : ℚ)
    (hc : ∀ (s : σ) (x : List ℚ) (t : ℚ),
      (M.efficiency s x t).1 = c ∧ (M.adaptability s x t).1 = c ∧ (M.collective s x t).1 = c)
    (hw : cfg.alpha + cfg.beta + cfg.gamma = 1) :
    ∀ (s : σ) (k : Nat) (xk : List ℚ),
      (objectiveStep cfg M s k xk).1 =
        (if k = 0 ∨ k = cfg.K - 1 then (1/2 : ℚ) else 1) * (c * cfg.dt) := by
  intro s k xk
  simp only [objectiveStep]
  rw [(hc _ _ _).1, (hc _ _ _).2.1, (hc _ _ _).2.2]
  have hsum : cfg.alpha * c + cfg.beta * c + cfg.gamma * c = c := by
    rw [← add_mul, ← add_mul, hw, one_mul]
  rw [hsum]
  ring

/-- C1 (amended): for a model whose three terms are the constant `c` at
every state and time, weights summing to 1, and `K ≥ 2` steps, the
aggregated objective over any flat vector whose length is a multiple of
`K` equals `c · dt · (K - 1)` — the endpoints `k = 0` and `k = K-1` carry
weight `0.5`, interior samples carry weight `1`, each scaled by `dt`.
(For `K = 1` the single sample is an endpoint and the total is
`0.5 · c · dt` instead; see the counterexample.) -/
theorem C1_trapezoidal_aggregate (cfg : Config) {σ : Type} (M : ModelFns σ) (s0 : σ) (c : ℚ)
    (hc : ∀ (s : σ) (x : List ℚ) (t : ℚ),
      (M.efficiency s x t).1 = c ∧ (M.adaptability s x t).1 = c ∧ (M.collective s x t).1 = c)
    (hw : cfg.alpha + cfg.beta + cfg.gamma = 1)
    (hK : 2 ≤ cfg.K) (v : List ℚ) (hv : cfg.K ∣ v.length) :
    ∃ sf : σ, objective_function cfg M s0 v = .ok (c * cfg.dt * ((cfg.K : ℚ) - 1), sf) := by
  obtain ⟨m, hm⟩ := hv
  rw [objective_function, objective_decode_of_mul cfg.K m (by omega) v hm]
  refine ⟨(aggregateSteps cfg M (decodeRows cfg.K m v) (List.range cfg.K) (0, s0)).2, ?_⟩
  have h1 : (aggregateSteps cfg M (decodeRows cfg.K m v) (List.range cfg.K) (0, s0)).1 =
      c * cfg.dt * ((cfg.K : ℚ) - 1) := by
    rw [aggregateSteps_fst_of_const cfg M (decodeRows cfg.K m v)
        (fun k => (if k = 0 ∨ k = cfg.K - 1 then (1/2 : ℚ) else 1) * (c * cfg.dt))
        (fun s k => objectiveStep_const cfg M c hc hw s k _) (List.range cfg.K) 0 s0,
      list_map_range_sum, ← Finset.sum_mul, trapezoid_weight_sum cfg.K hK]
    ring
  show Except.ok (aggregateSteps cfg M (decodeRows cfg.K m v) (List.range cfg.K) (0, s0)) = _
  rw [← h1]

/-- Witness for C1 (amended): constant terms `c = 1`, weights `(1,0,0)`,
horizon 2 with `K = 2` steps (`dt = 1`), flat vector `[0, 0]` — the
aggregate is `1 · dt · (2-1)`. -/
theorem C1_trapezoidal_aggregate_witness :
    ∃ sf : Unit, objective_function ⟨1, 0, 0, 2, 2⟩
        ⟨fun s _ _ => (1, s), fun s _ _ => (1, s), fun s _ _ => (1, s)⟩ () [0, 0] =
      .ok (1 * (⟨1, 0, 0, 2, 2⟩ : Config).dt * (((⟨1, 0, 0, 2, 2⟩ : Config).K : ℚ) - 1), sf) :=
  C1_trapezoidal_aggregate ⟨1, 0, 0, 2, 2⟩
    ⟨fun s _ _ => (1, s), fun s _ _ => (1, s), fun s _ _ => (1, s)⟩ () 1
    (fun s x t => ⟨rfl, rfl, rfl⟩) (by norm_num) (by norm_num) [0, 0] (by decide)

/-- Counterexample to C1 as stated (which asks for every `K ≥ 1`): with the
same constant-1 model, weights `(1,0,0)` summing to 1, horizon 1 and a
single step `K = 1` (`dt = 1`), the flat vector `[5]` has length `K·d` for
`d = 1`, yet the aggregate is `1/2` — the lone sample is endpoint-weighted
`0.5` — while `c · dt · (K - 1) = 0`. -/
theorem C1_trapezoidal_aggregate_counterexample :
    (⟨1, 0, 0, 1, 1⟩ : Config).alpha + (⟨1, 0, 0, 1, 1⟩ : Config).beta +
      (⟨1, 0, 0, 1, 1⟩ : Config).gamma = 1 ∧
    1 ≤ (⟨1, 0, 0, 1, 1⟩ : Config).K ∧
    ([5] : List ℚ).length = (⟨1, 0, 0, 1, 1⟩ : Config).K * 1 ∧
    objective_function ⟨1, 0, 0, 1, 1⟩
      ⟨fun s _ _ => (1, s), fun s _ _ => (1, s), fun s _ _ => (1, s)⟩ () [5] = .ok (1/2, ()) ∧
    (1/2 : ℚ) ≠ 1 * (⟨1, 0, 0, 1, 1⟩ : Config).dt * (((⟨1, 0, 0, 1, 1⟩ : Config).K : ℚ) - 1) := by
  refine ⟨by norm_num, by norm_num, by norm_num, ?_, by norm_num [Config.dt]⟩
  simp [objective_function, objective_decode, decodeRows, aggregateSteps, objectiveStep,
    Config.dt, List.range_succ, Except.map]
